import Mathlib

/-!
Shallow embedding of the descartes ladder-graph planner
(`descartes_planner/src/planning_graph.cpp`) together with the parts of the
ladder graph and the Dijkstra search that the planner uses.  Joint values are
rationals, waypoint IDs are naturals with `0` playing the role of the nil
(all-zero) uuid, and the positive-infinity cost sentinel is `none` in
`Option ℚ`.
-/

namespace Descartes

/-- A joint configuration: an ordered tuple of joint values. -/
abbrev JointConfig := List ℚ

/-- Per-waypoint timing constraint: `specified?` flag and an upper bound. -/
structure TimingConstraint where
  specified : Bool
  upper : ℚ
deriving DecidableEq, Repr

/-- Mirrors `TimingConstraint::isSpecified()`. -/
def TimingConstraint.isSpecified (tm : TimingConstraint) : Bool := tm.specified

/-- A ladder-graph edge: a cost and the destination vertex index in the next
rung. -/
structure Edge where
  cost : ℚ
  idx : ℕ
deriving DecidableEq, Repr

/-- Edge list out of one source vertex. -/
abbrev EdgeList := List Edge

/-- A rung: waypoint identity, timing, and the flat joint data
(`N · DOF` values for `N` vertices). -/
structure Rung where
  id : ℕ
  timing : TimingConstraint
  data : List ℚ
deriving DecidableEq, Repr

/-- The layered graph: an ordered list of rungs plus, for every rung except
the last, one `EdgeList` per vertex of that rung. -/
structure LadderGraph where
  dof : ℕ
  rungs : List Rung
  edges : List (List EdgeList)
deriving DecidableEq, Repr

/-- The kinematics oracle as seen by the planner: the joint dimension and the
move-validity predicate.  (IK enumeration is attached to the trajectory
points, see `TrajectoryPt.jointPoses`.) -/
structure RobotModel where
  dof : ℕ
  isValidMove : JointConfig → JointConfig → ℚ → Bool

/-- Optional user cost function over a pair of joint configurations. -/
abbrev CostFunction := JointConfig → JointConfig → ℚ

/-- A trajectory point: its 128-bit id (0 = nil), its timing constraint, and
the oracle's deterministic IK enumeration for it (`getJointPoses`); an empty
enumeration means IK failed. -/
structure TrajectoryPt where
  id : ℕ
  timing : TimingConstraint
  jointPoses : List JointConfig
deriving DecidableEq, Repr

/-- The `i`-th joint configuration inside a flat joint-data block,
i.e. the slice starting at offset `i * dof` of length `dof`.  This models the
pointer `data() + i` handed to the oracle and the cost function. -/
def configAt (joints : List ℚ) (dof i : ℕ) : JointConfig :=
  (joints.drop (i * dof)).take dof

/-- Cost for one `(source i, destination j)` pair, exactly as in
`PlanningGraph::calculateEdgeWeights`: the user cost function on the two
configurations when registered, otherwise the L1 sum
`Σ_k |start[i·dof+k] − end[j·dof+k]|`. -/
def edgePairCost (costFn : Option CostFunction) (startJoints endJoints : List ℚ)
    (dof i j : ℕ) : ℚ :=
  match costFn with
  | some f => f (configAt startJoints dof i) (configAt endJoints dof j)
  | none =>
    ((List.range dof).map fun k =>
      |startJoints.getD (i * dof + k) 0 - endJoints.getD (j * dof + k) 0|).sum

/-- Embedding of `PlanningGraph::calculateEdgeWeights`.  The double loop with
the `count`/`idx` counters and the prefix copy of `edge_scratch` is exactly a
`filterMap` over destination indices in enumeration order: a destination `j`
failing the timing/validity gate bumps `idx` but emits nothing, and an
emitted edge records the enumeration index `j` as its `to_index`. -/
def calculateEdgeWeights (model : RobotModel) (costFn : Option CostFunction)
    (startJoints endJoints : List ℚ) (dof : ℕ) (tm : TimingConstraint) :
    List EdgeList :=
  (List.range (startJoints.length / dof)).map fun i =>
    (List.range (endJoints.length / dof)).filterMap fun j =>
      if tm.isSpecified && !(model.isValidMove (configAt startJoints dof i)
          (configAt endJoints dof j) tm.upper) then
        none
      else
        some ⟨edgePairCost costFn startJoints endJoints dof i j, j⟩

/-- The empty rung used for fresh slots. -/
def emptyRung : Rung := ⟨0, ⟨false, 0⟩, []⟩

/-- Modelled from the spec: `size()` of the ladder graph (the header
`ladder_graph.h` is not under `src/`). -/
def LadderGraph.size (g : LadderGraph) : ℕ := g.rungs.length

/-- Modelled from the spec: graph reset used by `PlanningGraph::clear` —
removes every rung and every edge structure. -/
def LadderGraph.clear (g : LadderGraph) : LadderGraph :=
  { g with rungs := [], edges := [] }

/-- Modelled from the spec: `allocate(n)` resizes to `n` empty rungs, with
`n − 1` (empty) edge structures between consecutive rungs. -/
def LadderGraph.allocate (g : LadderGraph) (n : ℕ) : LadderGraph :=
  { g with rungs := List.replicate n emptyRung
           edges := List.replicate (n - 1) ([] : List EdgeList) }

/-- Modelled from the spec: `assign_rung(i, id, timing, joints)` overwrites
rung `i` with the given identity, timing and joint data (the enumeration is
concatenated flat, in oracle order); edges are not touched. -/
def LadderGraph.assignRung (g : LadderGraph) (i : ℕ) (id : ℕ)
    (tm : TimingConstraint) (joints : List JointConfig) : LadderGraph :=
  { g with rungs := g.rungs.set i ⟨id, tm, joints.flatten⟩ }

/-- Modelled from the spec: `assign_edges(i, E)` installs the per-vertex edge
lists from rung `i` to rung `i + 1`. -/
def LadderGraph.assignEdges (g : LadderGraph) (i : ℕ) (es : List EdgeList) :
    LadderGraph :=
  { g with edges := g.edges.set i es }

/-- Read accessor for rung `i` (the default is never reached on in-bounds
indices). -/
def LadderGraph.getRung (g : LadderGraph) (i : ℕ) : Rung :=
  g.rungs.getD i emptyRung

/-- Modelled from the spec: `clear_vertices(i)` resets rung `i`'s joint data
in place. -/
def LadderGraph.clearVertices (g : LadderGraph) (i : ℕ) : LadderGraph :=
  { g with rungs := g.rungs.set i { g.getRung i with data := [] } }

/-- Modelled from the spec: `clear_edges(i)` resets the edge structure out of
rung `i` in place. -/
def LadderGraph.clearEdges (g : LadderGraph) (i : ℕ) : LadderGraph :=
  { g with edges := g.edges.set i ([] : List EdgeList) }

/-- Modelled from the spec: `index_of(id)` returns `(position, present?)`;
the ID index maps a waypoint identity to its current rung position. -/
def LadderGraph.indexOf (g : LadderGraph) (id : ℕ) : ℕ × Bool :=
  (g.rungs.findIdx (fun r => r.id == id), g.rungs.any (fun r => r.id == id))

/-- Modelled from the spec: `is_first(i)`. -/
def LadderGraph.isFirst (g : LadderGraph) (i : ℕ) : Bool := i == 0

/-- Modelled from the spec: `is_last(i)`. -/
def LadderGraph.isLast (g : LadderGraph) (i : ℕ) : Bool := i + 1 == g.size

/-- Modelled from the spec: `insert_rung(i)` inserts an empty rung at
position `i`, shifting subsequent rungs right; the adjacent edge structures
on either side are left cleared (the new outgoing block is inserted empty,
and the incoming block `i − 1`, when it exists, is cleared). -/
def LadderGraph.insertRung (g : LadderGraph) (i : ℕ) : LadderGraph :=
  { g with
    rungs := g.rungs.insertIdx i emptyRung
    edges :=
      if g.rungs.length = 0 then g.edges
      else
        let e := g.edges.insertIdx (min i (g.rungs.length - 1)) ([] : List EdgeList)
        if i = 0 then e else e.set (i - 1) ([] : List EdgeList) }

/-- Modelled from the spec: `remove_rung(i)` deletes rung `i`, shifting
subsequent rungs left; one edge structure disappears with it, and if the
removed rung was interior the edge structure from rung `i − 1` is
invalidated (cleared, to be recomputed by the caller). -/
def LadderGraph.removeRung (g : LadderGraph) (i : ℕ) : LadderGraph :=
  { g with
    rungs := g.rungs.eraseIdx i
    edges :=
      let e := if i + 1 = g.rungs.length then g.edges.eraseIdx (i - 1)
               else g.edges.eraseIdx i
      if 0 < i ∧ i + 1 < g.rungs.length then e.set (i - 1) ([] : List EdgeList)
      else e }

/-- Number of vertices of rung `i` (flat data length over DOF). -/
def LadderGraph.vertexCount (g : LadderGraph) (i : ℕ) : ℕ :=
  (g.getRung i).data.length / g.dof

/-- Mirrors `graph_.vertex(i, idx)`: the joint configuration of vertex `idx`
of rung `i`. -/
def LadderGraph.vertex (g : LadderGraph) (i idx : ℕ) : JointConfig :=
  configAt (g.getRung i).data g.dof idx

/-- The planner facade: the ladder graph, the immutable oracle, and the
optional user cost function. -/
structure PlanningGraph where
  model : RobotModel
  costFn : Option CostFunction
  graph : LadderGraph

/-- Mirrors the `PlanningGraph` constructor: an empty graph whose DOF is the
model's. -/
def PlanningGraph.init (model : RobotModel) (costFn : Option CostFunction) :
    PlanningGraph :=
  ⟨model, costFn, ⟨model.dof, [], []⟩⟩

/-- Embedding of `PlanningGraph::calculateJointSolutions`: resolves the IK
enumeration of each point in order, stopping at the first point with an
empty enumeration; the output vector is pre-sized, so on failure the
already-processed prefix is filled and the remaining slots stay empty. -/
def calculateJointSolutions : List TrajectoryPt → Bool × List (List JointConfig)
  | [] => (true, [])
  | p :: ps =>
    if p.jointPoses.isEmpty then
      (false, [] :: ps.map fun _ => ([] : List JointConfig))
    else
      let rest := calculateJointSolutions ps
      (rest.1, p.jointPoses :: rest.2)

/-- Placeholder point used to read `points[i]` in folds. -/
def dummyPt : TrajectoryPt := ⟨0, ⟨false, 0⟩, []⟩

/-- Embedding of `PlanningGraph::computeAndAssignEdges`. -/
def computeAndAssignEdges (pg : PlanningGraph) (startIdx endIdx : ℕ) :
    PlanningGraph :=
  let joints1 := (pg.graph.getRung startIdx).data
  let joints2 := (pg.graph.getRung endIdx).data
  let tm := (pg.graph.getRung endIdx).timing
  let edges := calculateEdgeWeights pg.model pg.costFn joints1 joints2
    pg.model.dof tm
  { pg with graph := pg.graph.assignEdges startIdx edges }

/-- Embedding of `PlanningGraph::insertGraph`. -/
def insertGraph (pg : PlanningGraph) (points : List TrajectoryPt) :
    Bool × PlanningGraph :=
  if points.length < 2 then (false, pg)
  else
    let pg1 := if pg.graph.size > 0 then { pg with graph := pg.graph.clear }
               else pg
    let sols := calculateJointSolutions points
    if !sols.1 then (false, pg1)
    else
      let g1 := pg1.graph.allocate points.length
      let g2 := (List.range points.length).foldl
        (fun g i => g.assignRung i (points.getD i dummyPt).id
          (points.getD i dummyPt).timing (sols.2.getD i []))
        g1
      let pg2 := { pg1 with graph := g2 }
      let pg3 := (List.range (pg2.graph.size - 1)).foldl
        (fun q i => computeAndAssignEdges q i (i + 1)) pg2
      (true, pg3)

/-- Embedding of `PlanningGraph::addTrajectory`.  Note the fallback index
`size − 1` when `next_id` is not in the graph, and that the result of
`calculateJointSolutions` (the IK success flag) is discarded. -/
def addTrajectory (pg : PlanningGraph) (point : TrajectoryPt)
    (previousId nextId : ℕ) : Bool × PlanningGraph :=
  let ns := pg.graph.indexOf nextId
  let poses := (calculateJointSolutions [point]).2
  let insertIdx := if ns.2 then ns.1 else pg.graph.size - 1
  let g := (pg.graph.insertRung insertIdx).assignRung insertIdx point.id
    point.timing (poses.getD 0 [])
  let pg1 := { pg with graph := g }
  let pg2 := if previousId ≠ 0 then computeAndAssignEdges pg1 (insertIdx - 1) insertIdx
             else pg1
  let pg3 := if nextId ≠ 0 then computeAndAssignEdges pg2 insertIdx (insertIdx + 1)
             else pg2
  (true, pg3)

/-- Embedding of `PlanningGraph::modifyTrajectory`.  The IK success flag is
again discarded. -/
def modifyTrajectory (pg : PlanningGraph) (point : TrajectoryPt) :
    Bool × PlanningGraph :=
  let s := pg.graph.indexOf point.id
  if !s.2 then (false, pg)
  else
    let idx := s.1
    let poses := (calculateJointSolutions [point]).2
    let g := ((pg.graph.clearVertices idx).clearEdges idx).assignRung idx
      point.id point.timing (poses.getD 0 [])
    let pg1 := { pg with graph := g }
    let pg2 := if !(pg1.graph.isFirst idx) then
                 computeAndAssignEdges pg1 (idx - 1) idx
               else pg1
    let pg3 := if !(pg2.graph.isLast idx) then
                 computeAndAssignEdges pg2 idx (idx + 1)
               else pg2
    (true, pg3)

/-- Embedding of `PlanningGraph::removeTrajectory`. -/
def removeTrajectory (pg : PlanningGraph) (point : TrajectoryPt) :
    Bool × PlanningGraph :=
  let s := pg.graph.indexOf point.id
  if !s.2 then (false, pg)
  else
    let inMiddle := !(pg.graph.isFirst s.1) && !(pg.graph.isLast s.1)
    let pg1 := { pg with graph := pg.graph.removeRung s.1 }
    let pg2 := if inMiddle then computeAndAssignEdges pg1 (s.1 - 1) s.1 else pg1
    (true, pg2)

/-- Vertex distance: `none` is the positive-infinity sentinel. -/
abbrev Dist := Option ℚ

/-- Minimum of two distances, infinity greatest. -/
def dMin : Dist → Dist → Dist
  | none, d => d
  | some a, none => some a
  | some a, some b => some (min a b)

/-- Distance plus an edge cost; infinity absorbs. -/
def dAddCost : Dist → ℚ → Dist
  | none, _ => none
  | some a, c => some (a + c)

/-- Strict comparison of distances, infinity greatest. -/
def dLt : Dist → Dist → Bool
  | none, _ => false
  | some _, none => true
  | some a, some b => decide (a < b)

/-- Modelled from the spec: one relaxation target of the layered search
(`ladder_graph_dijkstras.h` is not under `src/`).  For destination vertex
`j`, fold over the source vertices in index order and their edges in list
order, keeping the strictly smallest `dist[v] + cost` together with the
vertex `v` that set it (ties keep the earliest, i.e. lowest-index, source). -/
def relaxVertex (j : ℕ) (prev : List Dist) (block : List EdgeList) :
    Dist × ℕ :=
  (List.range prev.length).foldl
    (fun acc v =>
      (block.getD v []).foldl
        (fun acc2 e =>
          if e.idx = j then
            let cand := dAddCost (prev.getD v none) e.cost
            if dLt cand acc2.1 then (cand, v) else acc2
          else acc2)
        acc)
    (none, 0)

/-- Modelled from the spec: relax one full layer. -/
def relaxLayer (prev : List Dist) (block : List EdgeList) (nextCount : ℕ) :
    List (Dist × ℕ) :=
  (List.range nextCount).map fun j => relaxVertex j prev block

/-- Modelled from the spec: all `(distance, predecessor)` layers of the
forward relaxation; rung 0 starts at distance 0. -/
def distLayers (g : LadderGraph) : List (List (Dist × ℕ)) :=
  if g.size = 0 then []
  else
    (List.range (g.size - 1)).foldl
      (fun layers i =>
        let prev := (layers.getLastD []).map Prod.fst
        layers ++ [relaxLayer prev (g.edges.getD i []) (g.vertexCount (i + 1))])
      [List.replicate (g.vertexCount 0) ((some 0 : Dist), 0)]

/-- Modelled from the spec: `DijkstrasSearch::run` returns the minimum
distance over the last rung (infinity when the graph is empty or no vertex
is reachable). -/
def searchRun (g : LadderGraph) : Dist :=
  ((distLayers g).getLastD []).foldl (fun acc p => dMin acc p.1) none

/-- First index of `ds` attaining the minimum distance (lowest index wins
ties). -/
def argminIdx (ds : List Dist) : ℕ :=
  ds.findIdx (fun d => d == ds.foldl dMin none)

/-- Backward walk through the predecessor layers; called on the reversed
layer list with the argmin vertex of the last rung. -/
def walkBack : List (List (Dist × ℕ)) → ℕ → List ℕ
  | [], _ => []
  | layer :: earlier, j => walkBack earlier (layer.getD j (none, 0)).2 ++ [j]

/-- Modelled from the spec: `DijkstrasSearch::shortestPath` — empty when the
minimum last-rung distance is the infinity sentinel, otherwise the vertex
index per rung obtained by following predecessors back from the argmin. -/
def searchShortestPath (g : LadderGraph) : List ℕ :=
  let layers := distLayers g
  let lastDists := (layers.getLastD []).map Prod.fst
  if (lastDists.foldl dMin none).isNone then []
  else walkBack layers.reverse (argminIdx lastDists)

/-- One output point of the shortest path: a joint configuration and the
timing of its rung. -/
structure JointTrajectoryPt where
  joints : List ℚ
  timing : TimingConstraint
deriving DecidableEq, Repr

/-- Embedding of `PlanningGraph::getShortestPath`: returns the success flag
(`cost != infinity`), the cost, and the output path built from the search
result (one joint configuration per path index, with that rung's timing). -/
def getShortestPath (pg : PlanningGraph) : Bool × Dist × List JointTrajectoryPt :=
  let minCost := searchRun pg.graph
  let pathIdxs := searchShortestPath pg.graph
  let path := (List.range pathIdxs.length).map fun i =>
    JointTrajectoryPt.mk (pg.graph.vertex i (pathIdxs.getD i 0))
      ((pg.graph.getRung i).timing)
  (!(minCost == none), minCost, path)

/-! Concrete instances used by the witness theorems. -/

/-- A 1-DOF model whose validity predicate always accepts. -/
def exModel : RobotModel := ⟨1, fun _ _ _ => true⟩

/-- An unspecified timing constraint. -/
def exTm : TimingConstraint := ⟨false, 0⟩

/-- A specified timing constraint with bound 1. -/
def exTmSpec : TimingConstraint := ⟨true, 1⟩

/-- A freshly constructed (empty) planner. -/
def exPG : PlanningGraph := PlanningGraph.init exModel none

/-- Point 1 at joint value 0. -/
def exPt1 : TrajectoryPt := ⟨1, exTm, [[0]]⟩

/-- Point 2 at joint value 1. -/
def exPt2 : TrajectoryPt := ⟨2, exTm, [[1]]⟩

/-- A point whose IK enumeration is empty (IK failure). -/
def exPtFail : TrajectoryPt := ⟨7, exTm, []⟩

/-- A two-rung graph (ids 1 and 2, one vertex each, one edge). -/
def cexGraph : LadderGraph :=
  ⟨1, [⟨1, exTm, [0]⟩, ⟨2, exTm, [1]⟩], [[[⟨1, 0⟩]]]⟩

/-- Planner owning `cexGraph`. -/
def cexPG : PlanningGraph := ⟨exModel, none, cexGraph⟩

/-- A fresh point (id 3) to add to `cexPG`. -/
def cexPt : TrajectoryPt := ⟨3, exTm, [[2]]⟩

/-- A two-rung graph whose only source vertex has no outgoing edges, so the
last rung is unreachable. -/
def infGraph : LadderGraph :=
  ⟨1, [⟨1, exTm, [0]⟩, ⟨2, exTm, [1]⟩], [[[]]]⟩

/-- Planner owning the infeasible graph. -/
def infPG : PlanningGraph := ⟨exModel, none, infGraph⟩

/-- A four-rung graph (ids 1, 2, 3, 4, one vertex each). -/
def midGraph : LadderGraph :=
  ⟨1, [⟨1, exTm, [0]⟩, ⟨2, exTm, [1]⟩, ⟨3, exTm, [2]⟩, ⟨4, exTm, [3]⟩],
   [[[⟨1, 0⟩]], [[⟨1, 0⟩]], [[⟨1, 0⟩]]]⟩

/-- Planner owning `midGraph`. -/
def midPG : PlanningGraph := ⟨exModel, none, midGraph⟩

/-- A replacement for the interior point (id 2) with new joints. -/
def midPt : TrajectoryPt := ⟨2, exTm, [[5]]⟩

/-- A replacement for the interior point (id 2) whose IK enumeration is
empty. -/
def midPtFail : TrajectoryPt := ⟨2, exTm, []⟩

/-! Helper lemmas. -/

theorem getD_map_range {α : Type} (f : ℕ → α) (n i : ℕ) (d : α) :
    ((List.range n).map f).getD i d = if i < n then f i else d := by
  by_cases h : i < n
  · simp [List.getD_eq_getElem?_getD, List.getElem?_map, List.getElem?_range h, h]
  · have hlen : ((List.range n).map f).length ≤ i := by
      simpa using Nat.le_of_not_lt h
    simp [List.getD_eq_getElem?_getD, List.getElem?_eq_none hlen, h]

theorem configAt_getD (s : List ℚ) (dof i k : ℕ) (hk : k < dof) :
    (configAt s dof i).getD k 0 = s.getD (i * dof + k) 0 := by
  simp [configAt, List.getD_eq_getElem?_getD, List.getElem?_take, hk,
    List.getElem?_drop]

/-- Membership in the edge list of source vertex `i`: exactly the
destinations that pass the timing/validity gate, carrying the pair cost and
the destination enumeration index. -/
theorem mem_edgeList_iff (model : RobotModel) (costFn : Option CostFunction)
    (s e : List ℚ) (dof : ℕ) (tm : TimingConstraint) (i : ℕ) (ed : Edge) :
    ed ∈ (calculateEdgeWeights model costFn s e dof tm).getD i [] ↔
      i < s.length / dof ∧ ∃ j, j < e.length / dof ∧
        (tm.isSpecified && !(model.isValidMove (configAt s dof i)
          (configAt e dof j) tm.upper)) = false ∧
        ed = ⟨edgePairCost costFn s e dof i j, j⟩ := by
  rw [calculateEdgeWeights, getD_map_range]
  by_cases hi : i < s.length / dof
  · rw [if_pos hi]
    simp only [List.mem_filterMap, List.mem_range, hi, true_and]
    constructor
    · rintro ⟨j, hj, hf⟩
      cases hguard : tm.isSpecified && !(model.isValidMove (configAt s dof i)
          (configAt e dof j) tm.upper) with
      | false =>
        rw [hguard] at hf
        simp only [Bool.false_eq_true, if_false, Option.some.injEq] at hf
        exact ⟨j, hj, hguard, hf.symm⟩
      | true =>
        rw [hguard] at hf
        simp at hf
    · rintro ⟨j, hj, hguard, rfl⟩
      refine ⟨j, hj, ?_⟩
      rw [hguard]
      simp
  · rw [if_neg hi]
    simp [hi]

/-- Mapping a left inverse over a `filterMap` yields a sublist of the input
(used for the ascending-destination-order property). -/
theorem map_filterMap_sublist {α β : Type} (f : α → Option β) (g : β → α)
    (hf : ∀ a b, f a = some b → g b = a) :
    ∀ l : List α, ((l.filterMap f).map g).Sublist l := by
  intro l
  induction l with
  | nil => simp
  | cons a t ih =>
    cases hfa : f a with
    | none =>
      simp only [List.filterMap_cons, hfa]
      exact ih.cons a
    | some b =>
      simp only [List.filterMap_cons, hfa, List.map_cons, hf a b hfa]
      exact ih.cons₂ a

/-! Claim theorems. -/

/-- Claim C1: for every pair of adjacent rungs and every source vertex `i`
and destination vertex `j` for which an edge is emitted, the edge cost is
the L1 joint-space distance between the two configurations when no user
cost function is registered, and the user function applied to the two
configurations when one is. -/
theorem edgeWeights_cost_metric (model : RobotModel)
    (costFn : Option CostFunction) (s e : List ℚ) (dof : ℕ)
    (tm : TimingConstraint) (i j : ℕ) (ed : Edge)
    (hmem : ed ∈ (calculateEdgeWeights model costFn s e dof tm).getD i [])
    (hidx : ed.idx = j) :
    (costFn = none →
      ed.cost = ((List.range dof).map fun k =>
        |(configAt s dof i).getD k 0 - (configAt e dof j).getD k 0|).sum) ∧
    (∀ u, costFn = some u →
      ed.cost = u (configAt s dof i) (configAt e dof j)) := by
  subst hidx
  rcases (mem_edgeList_iff model costFn s e dof tm i ed).mp hmem with
    ⟨hi, j', hj', hguard, rfl⟩
  constructor
  · rintro rfl
    have h0 : edgePairCost none s e dof i j' =
        ((List.range dof).map fun k =>
          |s.getD (i * dof + k) 0 - e.getD (j' * dof + k) 0|).sum := rfl
    show edgePairCost none s e dof i j' = _
    rw [h0]
    refine congrArg List.sum (List.map_congr_left ?_).symm
    intro k hk
    show |(configAt s dof i).getD k 0 - (configAt e dof j' ).getD k 0| = _
    rw [configAt_getD s dof i k (List.mem_range.mp hk),
      configAt_getD e dof j' k (List.mem_range.mp hk)]
  · rintro u rfl
    rfl

/-- Claim C2: when the target rung's timing is specified and the oracle
rejects the pair, no edge from `i` to `j` is emitted; when the timing is
unspecified, the oracle's validity predicate does not influence the result
(it is never consulted) and every pair gets an edge. -/
theorem edgeWeights_timing_gate (model : RobotModel)
    (costFn : Option CostFunction) (s e : List ℚ) (dof : ℕ)
    (tm : TimingConstraint) (i j : ℕ) :
    (tm.specified = true →
      model.isValidMove (configAt s dof i) (configAt e dof j) tm.upper = false →
      ∀ ed ∈ (calculateEdgeWeights model costFn s e dof tm).getD i [],
        ed.idx ≠ j) ∧
    (tm.specified = false →
      (∀ vm, calculateEdgeWeights ⟨model.dof, vm⟩ costFn s e dof tm
        = calculateEdgeWeights model costFn s e dof tm) ∧
      (i < s.length / dof → j < e.length / dof →
        ∃ ed ∈ (calculateEdgeWeights model costFn s e dof tm).getD i [],
          ed.idx = j)) := by
  constructor
  · intro hspec hrej ed hmem hedj
    rcases (mem_edgeList_iff model costFn s e dof tm i ed).mp hmem with
      ⟨hi, j', hj', hguard, rfl⟩
    have : j' = j := hedj
    subst this
    rw [TimingConstraint.isSpecified, hspec, hrej] at hguard
    simp at hguard
  · intro hspec
    constructor
    · intro vm
      simp [calculateEdgeWeights, TimingConstraint.isSpecified, hspec,
        edgePairCost]
    · intro hi hj
      refine ⟨⟨edgePairCost costFn s e dof i j, j⟩, ?_, rfl⟩
      refine (mem_edgeList_iff model costFn s e dof tm i _).mpr
        ⟨hi, j, hj, ?_, rfl⟩
      rw [TimingConstraint.isSpecified, hspec]
      simp

/-- Claim C3: the edge builder returns one edge list per source vertex
(`n_from` lists, the `i`-th from source vertex `i`), destination indices in
each list are strictly ascending, and an index `j` occurs in list `i` exactly
when `j` is a destination enumeration index that passed the validity gate —
so indices stay correct when earlier destinations were skipped. -/
theorem edgeWeights_shape_and_order (model : RobotModel)
    (costFn : Option CostFunction) (s e : List ℚ) (dof : ℕ)
    (tm : TimingConstraint) :
    (calculateEdgeWeights model costFn s e dof tm).length = s.length / dof ∧
    (∀ i, ((((calculateEdgeWeights model costFn s e dof tm).getD i []).map
        Edge.idx)).Pairwise (· < ·)) ∧
    (∀ i j, i < s.length / dof →
      ((∃ ed ∈ (calculateEdgeWeights model costFn s e dof tm).getD i [],
          ed.idx = j) ↔
        (j < e.length / dof ∧
          (tm.isSpecified && !(model.isValidMove (configAt s dof i)
            (configAt e dof j) tm.upper)) = false))) := by
  refine ⟨by simp [calculateEdgeWeights], ?_, ?_⟩
  · intro i
    rw [calculateEdgeWeights, getD_map_range]
    by_cases hi : i < s.length / dof
    · rw [if_pos hi]
      have hsub := map_filterMap_sublist
        (fun j => if (tm.isSpecified && !(model.isValidMove (configAt s dof i)
            (configAt e dof j) tm.upper)) = true then none
          else some (⟨edgePairCost costFn s e dof i j, j⟩ : Edge))
        Edge.idx
        (by
          intro j ed hf
          dsimp only at hf
          by_cases hguard : (tm.isSpecified && !(model.isValidMove
              (configAt s dof i) (configAt e dof j) tm.upper)) = true
          · rw [if_pos hguard] at hf
            cases hf
          · rw [if_neg hguard] at hf
            cases hf
            rfl)
        (List.range (e.length / dof))
      exact List.Pairwise.sublist hsub (List.pairwise_lt_range _)
    · rw [if_neg hi]
      simp
  · intro i j hi
    constructor
    · rintro ⟨ed, hmem, rfl⟩
      rcases (mem_edgeList_iff model costFn s e dof tm i ed).mp hmem with
        ⟨_, j', hj', hguard, rfl⟩
      exact ⟨hj', hguard⟩
    · rintro ⟨hj, hguard⟩
      exact ⟨⟨edgePairCost costFn s e dof i j, j⟩,
        (mem_edgeList_iff model costFn s e dof tm i _).mpr
          ⟨hi, j, hj, hguard, rfl⟩, rfl⟩

/-- Witness for C1: with a registered user cost function that returns 0, the
emitted edge between joints `[0]` and `[1]` carries the user cost. -/
theorem edgeWeights_cost_metric_witness :
    (⟨0, 0⟩ : Edge).cost = (fun _ _ => (0 : ℚ)) (configAt [0] 1 0)
      (configAt [1] 1 0) :=
  (edgeWeights_cost_metric exModel (some fun _ _ => 0) [0] [1] 1 exTm 0 0
    ⟨0, 0⟩ (by decide) (by decide)).2 (fun _ _ => 0) rfl

/-- Witness for C2: with the specified bound-1 constraint and a rejecting
model, destination 0 gets no edge from source 0. -/
theorem edgeWeights_timing_gate_witness :
    ∀ ed ∈ (calculateEdgeWeights ⟨1, fun _ _ _ => false⟩ none [0] [10] 1
      exTmSpec).getD 0 [], ed.idx ≠ 0 :=
  (edgeWeights_timing_gate ⟨1, fun _ _ _ => false⟩ none [0] [10] 1
    exTmSpec 0 0).1 (by decide) (by decide)

/-- Witness for C3: on a 2-vertex source rung the builder returns two lists
and destination 1 of source 0 is present (its gate passes). -/
theorem edgeWeights_shape_and_order_witness :
    ∃ ed ∈ (calculateEdgeWeights exModel none [0, 10] [0, 10] 1 exTm).getD
      0 [], ed.idx = 1 :=
  ((edgeWeights_shape_and_order exModel none [0, 10] [0, 10] 1 exTm).2.2
    0 1 (by decide)).mpr (by decide)

/-! Helper lemmas about the graph operations and the planner facade. -/

theorem size_computeAndAssignEdges (pg : PlanningGraph) (a b : ℕ) :
    (computeAndAssignEdges pg a b).graph.size = pg.graph.size := rfl

theorem size_assignRung (g : LadderGraph) (i id : ℕ) (t : TimingConstraint)
    (j : List JointConfig) : (g.assignRung i id t j).size = g.size := by
  simp [LadderGraph.assignRung, LadderGraph.size]

theorem size_clearEdges (g : LadderGraph) (i : ℕ) :
    (g.clearEdges i).size = g.size := rfl

theorem size_clearVertices (g : LadderGraph) (i : ℕ) :
    (g.clearVertices i).size = g.size := by
  simp [LadderGraph.clearVertices, LadderGraph.size]

theorem rungs_computeAndAssignEdges (pg : PlanningGraph) (a b : ℕ) :
    (computeAndAssignEdges pg a b).graph.rungs = pg.graph.rungs := rfl

theorem rungs_assignRung (g : LadderGraph) (i id : ℕ) (t : TimingConstraint)
    (j : List JointConfig) :
    (g.assignRung i id t j).rungs = g.rungs.set i ⟨id, t, j.flatten⟩ := rfl

theorem rungs_clearEdges (g : LadderGraph) (i : ℕ) :
    (g.clearEdges i).rungs = g.rungs := rfl

theorem rungs_clearVertices (g : LadderGraph) (i : ℕ) :
    (g.clearVertices i).rungs = g.rungs.set i { g.getRung i with data := [] } :=
  rfl

theorem edges_computeAndAssignEdges (pg : PlanningGraph) (a b : ℕ) :
    (computeAndAssignEdges pg a b).graph.edges =
      pg.graph.edges.set a (calculateEdgeWeights pg.model pg.costFn
        (pg.graph.getRung a).data (pg.graph.getRung b).data pg.model.dof
        (pg.graph.getRung b).timing) := rfl

theorem edges_assignRung (g : LadderGraph) (i id : ℕ) (t : TimingConstraint)
    (j : List JointConfig) : (g.assignRung i id t j).edges = g.edges := rfl

theorem edges_clearEdges (g : LadderGraph) (i : ℕ) :
    (g.clearEdges i).edges = g.edges.set i [] := rfl

theorem edges_clearVertices (g : LadderGraph) (i : ℕ) :
    (g.clearVertices i).edges = g.edges := rfl

/-- Edge recomputation (conditional or not) never touches the rungs. -/
theorem rungs_ite_comp (c : Prop) [Decidable c] (q : PlanningGraph)
    (a b : ℕ) :
    (if c then computeAndAssignEdges q a b else q).graph.rungs =
      q.graph.rungs := by
  by_cases h : c <;> simp [h, rungs_computeAndAssignEdges]

/-- The single-point joint-solution call returns exactly the point's IK
enumeration in slot 0 (the empty list when IK failed, since the output was
pre-sized). -/
theorem calcJS_single (pt : TrajectoryPt) :
    (calculateJointSolutions [pt]).2.getD 0 [] = pt.jointPoses := by
  by_cases h : pt.jointPoses.isEmpty
  · simp [calculateJointSolutions, h, List.isEmpty_iff.mp h]
  · simp [calculateJointSolutions, h]

/-- If any point's IK enumeration is empty, the joint-solution pre-check
reports failure. -/
theorem calcJS_fst_false (p : TrajectoryPt) (hfail : p.jointPoses = []) :
    ∀ points : List TrajectoryPt, p ∈ points →
      (calculateJointSolutions points).1 = false := by
  intro points
  induction points with
  | nil => intro h; cases h
  | cons q qs ih =>
    intro hmem
    rcases List.mem_cons.mp hmem with rfl | h
    · simp [calculateJointSolutions, List.isEmpty_iff, hfail]
    · by_cases hq : q.jointPoses.isEmpty
      · simp [calculateJointSolutions, hq]
      · simp [calculateJointSolutions, hq, ih h]

/-- Inserting at `k ≤ length` and then overwriting slot `k` splices the new
element between the first `k` elements and the rest. -/
theorem insertIdx_set_take_drop {α : Type} (a r : α) :
    ∀ (l : List α) (k : ℕ), k ≤ l.length →
      (l.insertIdx k a).set k r = l.take k ++ r :: l.drop k := by
  intro l
  induction l with
  | nil =>
    intro k hk
    cases k with
    | zero => rfl
    | succ k => exact absurd hk (Nat.not_succ_le_zero k)
  | cons x t ih =>
    intro k hk
    cases k with
    | zero => rfl
    | succ k =>
      have hk' : k ≤ t.length := Nat.le_of_succ_le_succ hk
      rw [List.insertIdx_succ_cons]
      show x :: (t.insertIdx k a).set k r = x :: t.take k ++ r :: t.drop k
      rw [ih k hk']
      rfl

/-- A present id resolves to an in-range rung position. -/
theorem indexOf_fst_lt (g : LadderGraph) (id : ℕ)
    (h : (g.indexOf id).2 = true) : (g.indexOf id).1 < g.rungs.length := by
  have h2 : g.rungs.any (fun r => r.id == id) = true := h
  exact List.findIdx_lt_length.mpr (List.any_eq_true.mp h2)

/-- When the minimum last-rung distance is the infinity sentinel the search
returns the empty path. -/
theorem searchShortestPath_of_infeasible (g : LadderGraph)
    (h : searchRun g = none) : searchShortestPath g = [] := by
  have h2 : (((distLayers g).getLastD []).map Prod.fst).foldl dMin none
      = none := by
    rw [List.foldl_map]
    exact h
  rw [searchShortestPath]
  simp only [h2]
  rfl

/-- Claim C4 (counterexample): on a two-rung graph, `add_trajectory` with an
absent (nil) `next_id` does NOT append at the tail: the rung order becomes
`[1, 3, 2]` and the new point's rung is not the last rung. -/
theorem addTrajectory_append_cex :
    (cexPG.graph.indexOf 0).2 = false ∧
    (addTrajectory cexPG cexPt 0 0).2.graph.rungs.map Rung.id = [1, 3, 2] ∧
    (addTrajectory cexPG cexPt 0 0).2.graph.rungs.getLast?.map Rung.id ≠
      some cexPt.id := ⟨by decide, by decide, by decide⟩

/-- Claim C4 (amended): when `next_id` is not present in the ID index (and
the graph is non-empty), the new point is inserted at index `size − 1`,
i.e. immediately BEFORE the current last rung — the fallback index is
`size − 1`, not `size`, so the point is not appended at the tail. -/
theorem addTrajectory_insert_before_last (pg : PlanningGraph)
    (pt : TrajectoryPt) (previousId nextId : ℕ)
    (habs : (pg.graph.indexOf nextId).2 = false)
    (hne : 0 < pg.graph.size) :
    (addTrajectory pg pt previousId nextId).2.graph.rungs =
      pg.graph.rungs.take (pg.graph.size - 1)
        ++ ⟨pt.id, pt.timing, pt.jointPoses.flatten⟩
        :: pg.graph.rungs.drop (pg.graph.size - 1) := by
  rw [addTrajectory]
  simp only [habs, Bool.false_eq_true, if_false, rungs_ite_comp,
    calcJS_single]
  show ((pg.graph.rungs.insertIdx (pg.graph.size - 1) emptyRung).set
    (pg.graph.size - 1) ⟨pt.id, pt.timing, pt.jointPoses.flatten⟩) = _
  exact insertIdx_set_take_drop emptyRung _ pg.graph.rungs _ (Nat.sub_le _ _)

/-- Witness for C4 (amended): adding id 3 to the two-rung graph with nil
neighbors splices it in front of the last rung. -/
theorem addTrajectory_insert_before_last_witness :
    (addTrajectory cexPG cexPt 0 0).2.graph.rungs =
      cexPG.graph.rungs.take (cexPG.graph.size - 1)
        ++ ⟨cexPt.id, cexPt.timing, cexPt.jointPoses.flatten⟩
        :: cexPG.graph.rungs.drop (cexPG.graph.size - 1) :=
  addTrajectory_insert_before_last cexPG cexPt 0 0 (by decide) (by decide)

/-- Claim C5: `shortest_path` signals infeasibility by the positive-infinity
sentinel — when the minimum last-rung distance is infinite the returned cost
is the sentinel, the path is empty and the success flag is false, and the
flag is true exactly when the returned cost is finite. -/
theorem getShortestPath_infinity_sentinel (pg : PlanningGraph) :
    ((getShortestPath pg).2.1 = none →
      (getShortestPath pg).1 = false ∧ (getShortestPath pg).2.2 = []) ∧
    ((getShortestPath pg).1 = true ↔ (getShortestPath pg).2.1 ≠ none) := by
  constructor
  · intro h
    have hrun : searchRun pg.graph = none := h
    constructor
    · show (!(searchRun pg.graph == none)) = false
      rw [hrun]
      rfl
    · have hpath : searchShortestPath pg.graph = [] :=
        searchShortestPath_of_infeasible pg.graph hrun
      show ((List.range (searchShortestPath pg.graph).length).map fun i =>
        JointTrajectoryPt.mk (pg.graph.vertex i
          ((searchShortestPath pg.graph).getD i 0))
          ((pg.graph.getRung i).timing)) = []
      rw [hpath]
      rfl
  · show (!(searchRun pg.graph == none)) = true ↔ searchRun pg.graph ≠ none
    cases hm : searchRun pg.graph with
    | none => simp
    | some q => simp

/-- Witness for C5: on a graph whose last rung is unreachable, the planner
reports failure with an empty path. -/
theorem getShortestPath_infinity_sentinel_witness :
    (getShortestPath infPG).1 = false ∧ (getShortestPath infPG).2.2 = [] :=
  (getShortestPath_infinity_sentinel infPG).1 (by decide)

/-- Claim C6: `modify_trajectory` on an existing interior rung changes only
that rung and the two adjacent edge blocks; every other rung and every
non-adjacent edge block is unchanged. -/
theorem modifyTrajectory_frame_effect (pg : PlanningGraph)
    (pt : TrajectoryPt) (idx : ℕ)
    (hidx : pg.graph.indexOf pt.id = (idx, true))
    (h0 : 0 < idx) (hlast : idx + 1 < pg.graph.size) :
    (modifyTrajectory pg pt).1 = true ∧
    (∀ k, k ≠ idx →
      (modifyTrajectory pg pt).2.graph.rungs[k]? = pg.graph.rungs[k]?) ∧
    (∀ k, k ≠ idx - 1 → k ≠ idx →
      (modifyTrajectory pg pt).2.graph.edges[k]? = pg.graph.edges[k]?) := by
  have h1 : (idx == 0) = false := by
    simp
    omega
  have h2 : (idx + 1 == pg.graph.size) = false := by
    simp
    omega
  rw [modifyTrajectory, hidx]
  simp only [Bool.not_true, Bool.false_eq_true, if_false,
    LadderGraph.isFirst, LadderGraph.isLast, h1, Bool.not_false, if_true,
    size_computeAndAssignEdges, size_assignRung, size_clearEdges,
    size_clearVertices, h2]
  refine ⟨trivial, fun k hk => ?_, fun k hk1 hk2 => ?_⟩
  · simp only [rungs_computeAndAssignEdges, rungs_assignRung,
      rungs_clearEdges, rungs_clearVertices]
    rw [List.getElem?_set_ne (Ne.symm hk), List.getElem?_set_ne (Ne.symm hk)]
  · simp only [edges_computeAndAssignEdges, edges_assignRung,
      edges_clearVertices, edges_clearEdges]
    rw [List.getElem?_set_ne (Ne.symm hk2),
      List.getElem?_set_ne (Ne.symm hk1),
      List.getElem?_set_ne (Ne.symm hk2)]

/-- Witness for C6: modifying interior rung 1 of the four-rung graph leaves
rung 0, rung 3 and the non-adjacent edge block 2 untouched. -/
theorem modifyTrajectory_frame_effect_witness :
    (modifyTrajectory midPG midPt).1 = true ∧
    (modifyTrajectory midPG midPt).2.graph.rungs[0]? =
      midPG.graph.rungs[0]? ∧
    (modifyTrajectory midPG midPt).2.graph.rungs[3]? =
      midPG.graph.rungs[3]? ∧
    (modifyTrajectory midPG midPt).2.graph.edges[2]? =
      midPG.graph.edges[2]? :=
  ⟨(modifyTrajectory_frame_effect midPG midPt 1 (by decide) (by decide)
      (by decide)).1,
   (modifyTrajectory_frame_effect midPG midPt 1 (by decide) (by decide)
      (by decide)).2.1 0 (by decide),
   (modifyTrajectory_frame_effect midPG midPt 1 (by decide) (by decide)
      (by decide)).2.1 3 (by decide),
   (modifyTrajectory_frame_effect midPG midPt 1 (by decide) (by decide)
      (by decide)).2.2 2 (by decide) (by decide)⟩

/-- Claim C7: if the oracle returns zero joint configurations for some
waypoint, `insert_graph` (with at least 2 points) returns false and leaves
the graph empty — the IK pre-check runs before `allocate`, so no rung is
committed (and a previously non-empty graph was already reset). -/
theorem insertGraph_ik_failure_leaves_empty (pg : PlanningGraph)
    (points : List TrajectoryPt) (hlen : 2 ≤ points.length)
    (p : TrajectoryPt) (hp : p ∈ points) (hfail : p.jointPoses = [])
    (hwf : pg.graph.rungs = [] → pg.graph.edges = []) :
    (insertGraph pg points).1 = false ∧
    (insertGraph pg points).2.graph.rungs = [] ∧
    (insertGraph pg points).2.graph.edges = [] := by
  have hflag := calcJS_fst_false p hfail points hp
  have hnot : ¬ points.length < 2 := Nat.not_lt.mpr hlen
  have hstep : insertGraph pg points =
      (false, if pg.graph.size > 0 then { pg with graph := pg.graph.clear }
              else pg) := by
    rw [insertGraph, if_neg hnot]
    simp [hflag]
  rw [hstep]
  have hrungs0 : ¬ pg.graph.size > 0 → pg.graph.rungs = [] := fun h =>
    List.length_eq_zero.mp (Nat.eq_zero_of_not_pos h)
  refine ⟨rfl, ?_, ?_⟩
  · by_cases hsz : pg.graph.size > 0
    · simp [hsz, LadderGraph.clear]
    · simp [hsz, hrungs0 hsz]
  · by_cases hsz : pg.graph.size > 0
    · simp [hsz, LadderGraph.clear]
    · simp [hsz, hwf (hrungs0 hsz)]

/-- Witness for C7: inserting a 2-point trajectory whose second point fails
IK returns false with an empty graph. -/
theorem insertGraph_ik_failure_leaves_empty_witness :
    (insertGraph exPG [exPt1, exPtFail]).1 = false ∧
    (insertGraph exPG [exPt1, exPtFail]).2.graph.rungs = [] ∧
    (insertGraph exPG [exPt1, exPtFail]).2.graph.edges = [] :=
  insertGraph_ik_failure_leaves_empty exPG [exPt1, exPtFail] (by decide)
    exPtFail (by decide) rfl (fun _ => rfl)

/-- Claim C8: `modify_trajectory` and `remove_trajectory` on an id that is
not in the graph return the failure flag and leave the whole planner state
unchanged. -/
theorem unknown_id_is_noop (pg : PlanningGraph) (pt : TrajectoryPt)
    (h : (pg.graph.indexOf pt.id).2 = false) :
    modifyTrajectory pg pt = (false, pg) ∧
    removeTrajectory pg pt = (false, pg) := by
  constructor
  · rw [modifyTrajectory]
    simp [h]
  · rw [removeTrajectory]
    simp [h]

/-- Witness for C8: id 7 is unknown to the two-rung graph; both operations
are failing no-ops. -/
theorem unknown_id_is_noop_witness :
    modifyTrajectory cexPG exPtFail = (false, cexPG) ∧
    removeTrajectory cexPG exPtFail = (false, cexPG) :=
  unknown_id_is_noop cexPG exPtFail (by decide)

/-- Claim C9: `insert_graph` with fewer than 2 waypoints fails and performs
no mutation at all — the planner state is returned untouched (in particular
a non-empty graph is not reset and nothing is computed). -/
theorem insertGraph_too_few_points (pg : PlanningGraph)
    (points : List TrajectoryPt) (h : points.length < 2) :
    insertGraph pg points = (false, pg) := by
  rw [insertGraph, if_pos h]

/-- Witness for C9: a single-point insertion fails and leaves the planner
untouched. -/
theorem insertGraph_too_few_points_witness :
    insertGraph cexPG [exPt1] = (false, cexPG) :=
  insertGraph_too_few_points cexPG [exPt1] (by decide)

/-- Claim C10: `add_trajectory` (for any point) and `modify_trajectory`
(for a point whose id lookup succeeds) discard the IK-failure result: on an
empty IK enumeration they still mutate the graph, installing a rung with
zero vertices, and still return true.  (For `add_trajectory` we restrict to
the cases where the C++ insertion index does not underflow: the `next_id`
is present or the graph is non-empty.) -/
theorem ik_failure_result_discarded (pg : PlanningGraph) (pt : TrajectoryPt)
    (previousId nextId idx : ℕ) :
    (pt.jointPoses = [] →
      ((pg.graph.indexOf nextId).2 = true ∨ 0 < pg.graph.size) →
      (addTrajectory pg pt previousId nextId).1 = true ∧
      (addTrajectory pg pt previousId nextId).2.graph.rungs[
          if (pg.graph.indexOf nextId).2 then (pg.graph.indexOf nextId).1
          else pg.graph.size - 1]? = some ⟨pt.id, pt.timing, []⟩) ∧
    (pt.jointPoses = [] → pg.graph.indexOf pt.id = (idx, true) →
      (modifyTrajectory pg pt).1 = true ∧
      (modifyTrajectory pg pt).2.graph.rungs[idx]? =
        some ⟨pt.id, pt.timing, []⟩) := by
  constructor
  · intro hfail _hcorner
    constructor
    · rfl
    · rw [addTrajectory]
      simp only [rungs_ite_comp, calcJS_single, hfail]
      set k := if (pg.graph.indexOf nextId).2 = true
        then (pg.graph.indexOf nextId).1 else pg.graph.size - 1 with hkdef
      have hk : k ≤ pg.graph.rungs.length := by
        rw [hkdef]
        by_cases h : (pg.graph.indexOf nextId).2 = true
        · simp only [h, if_true]
          exact Nat.le_of_lt (indexOf_fst_lt pg.graph nextId h)
        · simp only [h, if_false]
          exact Nat.sub_le _ _
      show ((pg.graph.rungs.insertIdx k emptyRung).set k
        ⟨pt.id, pt.timing, List.flatten []⟩)[k]? = _
      rw [List.getElem?_set_self]
      · rfl
      · rw [List.length_insertIdx _ _ hk]
        omega
  · intro hfail hidx
    have hlt : idx < pg.graph.rungs.length := by
      have h2 : (pg.graph.indexOf pt.id).2 = true := by rw [hidx]
      have h3 := indexOf_fst_lt pg.graph pt.id h2
      rwa [hidx] at h3
    rw [modifyTrajectory, hidx]
    simp only [Bool.not_true, Bool.false_eq_true, if_false]
    constructor
    · trivial
    · simp only [rungs_ite_comp, calcJS_single, hfail]
      show ((pg.graph.rungs.set idx _).set idx
        ⟨pt.id, pt.timing, List.flatten []⟩)[idx]? = _
      rw [List.getElem?_set_self]
      · rfl
      · simp [hlt]

/-- Witness for C10: adding an IK-failed point to the two-rung graph and
modifying interior rung 1 of the four-rung graph with an IK-failed point
both succeed and install a zero-vertex rung. -/
theorem ik_failure_result_discarded_witness :
    ((addTrajectory cexPG exPtFail 0 0).1 = true ∧
      (addTrajectory cexPG exPtFail 0 0).2.graph.rungs[
          if (cexPG.graph.indexOf 0).2 then (cexPG.graph.indexOf 0).1
          else cexPG.graph.size - 1]? =
        some ⟨exPtFail.id, exPtFail.timing, []⟩) ∧
    ((modifyTrajectory midPG midPtFail).1 = true ∧
      (modifyTrajectory midPG midPtFail).2.graph.rungs[1]? =
        some ⟨midPtFail.id, midPtFail.timing, []⟩) :=
  ⟨(ik_failure_result_discarded cexPG exPtFail 0 0 1).1 rfl
      (Or.inr (by decide)),
   (ik_failure_result_discarded midPG midPtFail 0 0 1).2 rfl (by decide)⟩

end Descartes
